import Mathlib

/-!
# RCXcloud Secure Core — verification of the natural-language specification

A shallow embedding of the RCXcloud "Secure Core" (the `core` crate): byte
strings are `List Nat` (each element a byte value), machine integers are `Nat`
with explicit `% 2^w` where overflow matters, fallible operations return
`Option`/`Except`, and mutable output buffers are modelled by returning the
buffer's final contents.  External cryptographic primitives (the `aes`,
`hmac`/`sha2` and `argon2` crates) are modelled as abstract function
parameters bundled in `Prims`; everything built on top of them (GCM mode,
HKDF, the session/keystore/kill state machines) is translated from the
repository's source files.
-/

namespace RCX

/- ───────────────────────── byte-string helpers ───────────────────────── -/

/-- All-zero byte buffer of length `n`; models `out.fill(0)` / `vec![0u8; n]`. -/
def zeros (n : Nat) : List Nat := List.replicate n 0

/-- First `k` bytes of `l`, zero-padded so the result always has length `k`.
Models fixed-size Rust buffers (`[u8; k]`) that receive a `copy_from_slice`. -/
def takeExact (k : Nat) (l : List Nat) : List Nat :=
  (l ++ List.replicate k 0).take k

/-- Big-endian encoding of `n` into exactly `k` bytes; models
`uNN::to_be_bytes` (the value is reduced `mod 2^(8k)` like the machine type). -/
def beBytes : Nat → Nat → List Nat
  | 0, _ => []
  | k + 1, n => beBytes k (n / 256) ++ [n % 256]

/-- Big-endian decoding of a byte string; models `uNN::from_be_bytes`. -/
def beToNat (bs : List Nat) : Nat :=
  bs.foldl (fun acc b => acc * 256 + b) 0

/-- Pointwise XOR of two byte strings (truncates to the shorter). -/
def xorBytes (a b : List Nat) : List Nat :=
  List.zipWith (fun x y => x ^^^ y) a b

/-- ASCII bytes of a string literal; models Rust `b"..."` byte strings. -/
def asciiBytes (s : String) : List Nat :=
  s.toList.map (fun ch => ch.toNat)


/- ───────────────────── external primitives (`Prims`) ─────────────────────

The core delegates three primitives to external crates: the AES-256 block
cipher (`aes` crate, reached through `aes_gcm`), HMAC-SHA256 (`hmac`/`sha2`,
used by HKDF and nonce derivation) and Argon2id (`argon2`).  They are modelled
as abstract functions on byte strings; every theorem below holds for every
instantiation, so nothing proved here depends on unmodelled cipher internals. -/

structure Prims where
  /-- AES-256 block encryption: key bytes → 16-byte block → 16-byte block. -/
  blockE : List Nat → List Nat → List Nat
  /-- HMAC-SHA256: key → message → 32-byte MAC. -/
  hmacSha256 : List Nat → List Nat → List Nat
  /-- Argon2id with the crate's fixed-output interface: password → salt →
  output key material (`derive_two_keys` requests 64 bytes). -/
  argon2 : List Nat → List Nat → List Nat

/-- Block cipher output forced to the AES block size, as the `aes` crate's
`Block` type guarantees. -/
def blockOf (p : Prims) (key blk : List Nat) : List Nat :=
  takeExact 16 (p.blockE key blk)

/- ─────────────── GCM mode (model of the `aes_gcm` crate) ───────────────

`Aes256Gcm::{encrypt,decrypt}_in_place_detached` from the external crate,
spelled out as NIST SP 800-38D GCM over the abstract block cipher: CTR-mode
keystream starting at counter 2, GHASH over GF(2^128), tag = GHASH ⊕ E_K(J0).
The 96-bit-nonce case is modelled (`J0 = nonce ‖ 0x00000001`), which is the
only case the repository uses. -/

/-- One GHASH "multiply by H" doubling step on a 128-bit value
(right shift with reduction by the GHASH polynomial). -/
def gfDouble (v : Nat) : Nat :=
  if v % 2 = 1 then (v / 2) ^^^ 0xE1000000000000000000000000000000 else v / 2

/-- GF(2^128) product, iterating over the 128 bits of `x` from the MSB. -/
def gfMulAux : Nat → Nat → Nat → Nat → Nat
  | 0, _, _, acc => acc
  | i + 1, x, v, acc =>
    let acc' := if x / 2 ^ i % 2 = 1 then acc ^^^ v else acc
    gfMulAux i x (gfDouble v) acc'

/-- GF(2^128) multiplication used by GHASH. -/
def gfMul (x y : Nat) : Nat := gfMulAux 128 x y 0

/-- GHASH compression over a list of 128-bit blocks. -/
def ghash (h : Nat) (blocks : List Nat) : Nat :=
  blocks.foldl (fun y b => gfMul (y ^^^ b) h) 0

/-- Split a byte string into 16-byte chunks (fuel-driven so it reduces in the
kernel). -/
def chunksAux : Nat → List Nat → List (List Nat)
  | 0, _ => []
  | _, [] => []
  | fuel + 1, l => l.take 16 :: chunksAux fuel (l.drop 16)

def chunks16 (l : List Nat) : List (List Nat) := chunksAux l.length l

/-- Zero-pad to a multiple of 16 bytes (GHASH input padding). -/
def pad16 (l : List Nat) : List Nat :=
  l ++ zeros ((16 - l.length % 16) % 16)

/-- Incrementing counter block `nonce ‖ i` for a 96-bit nonce. -/
def counterBlock (nonce : List Nat) (i : Nat) : List Nat :=
  nonce ++ beBytes 4 i

/-- Pre-counter block `J0` for a 96-bit nonce. -/
def j0 (nonce : List Nat) : List Nat := nonce ++ beBytes 4 1

/-- CTR keystream of exactly `n` bytes, counters starting at 2. -/
def keystream (p : Prims) (key nonce : List Nat) (n : Nat) : List Nat :=
  takeExact n
    (((List.range (n / 16 + 1)).map
      (fun i => blockOf p key (counterBlock nonce (i + 2)))).flatten)

/-- GCM authentication tag over `(key, nonce, aad, ciphertext)`. -/
def gcmTag (p : Prims) (key nonce aad ct : List Nat) : List Nat :=
  let h := beToNat (blockOf p key (zeros 16))
  let blocks := (chunks16
    (pad16 aad ++ pad16 ct ++ beBytes 8 (8 * aad.length)
      ++ beBytes 8 (8 * ct.length))).map beToNat
  xorBytes (beBytes 16 (ghash h blocks)) (blockOf p key (j0 nonce))

/-- Model of `Aes256Gcm::encrypt_in_place_detached`: returns
`(ciphertext, tag)`. -/
def encryptDetached (p : Prims) (key nonce aad msg : List Nat) :
    List Nat × List Nat :=
  let ct := xorBytes msg (keystream p key nonce msg.length)
  (ct, gcmTag p key nonce aad ct)

/-- Model of `Aes256Gcm::decrypt_in_place_detached`: verify the tag, then
decrypt; `none` on authentication failure. -/
def decryptDetached (p : Prims) (key nonce aad ct tag : List Nat) :
    Option (List Nat) :=
  if gcmTag p key nonce aad ct = tag then
    some (xorBytes ct (keystream p key nonce ct.length))
  else
    none

/- ───────────────── `crypto/aes_gcm.rs`: `seal` / `open` ───────────────── -/

def NONCE_LEN : Nat := 12
def TAG_LEN : Nat := 16

/-- `aes_gcm::seal` (crypto/aes_gcm.rs:30-68).  Returns `(ok, out')` where
`out'` is the final content of the caller's `out` buffer.  A failed
`Aes256Gcm::new_from_slice` (key not 32 bytes) zeroes `out`, as does a length
mismatch. -/
def seal_ (p : Prims) (key : List Nat) (nonce : List Nat)
    (plaintext aad out : List Nat) : Bool × List Nat :=
  let required := plaintext.length + TAG_LEN
  if out.length ≠ required then
    (false, zeros out.length)
  else if key.length ≠ 32 then
    (false, zeros out.length)
  else
    let r := encryptDetached p key nonce aad plaintext
    (true, r.1 ++ r.2)

/-- `aes_gcm::open` (crypto/aes_gcm.rs:76-122).  Returns `(ok, out')`;
the plaintext is revealed in `out'` only when authentication succeeded,
otherwise `out` is zeroed. -/
def open_ (p : Prims) (key : List Nat) (nonce : List Nat)
    (input aad out : List Nat) : Bool × List Nat :=
  if input.length < TAG_LEN then
    (false, zeros out.length)
  else
    let ct_len := input.length - TAG_LEN
    if out.length ≠ ct_len then
      (false, zeros out.length)
    else if key.length ≠ 32 then
      (false, zeros out.length)
    else
      match decryptDetached p key nonce aad (input.take ct_len) (input.drop ct_len) with
      | some pt => (true, pt)
      | none => (false, zeros out.length)


/- ───────────── `crypto/derive.rs`: purpose-tagged derivation ───────────── -/

inductive Purpose
  | fileEncryption
  | metadata
  | pairing
  | recovery
deriving DecidableEq

/-- Fixed domain-separation label of each purpose (crypto/derive.rs:44-51). -/
def Purpose.label : Purpose → List Nat
  | .fileEncryption => asciiBytes "rcx:file:enc:v1"
  | .metadata => asciiBytes "rcx:meta:v1"
  | .pairing => asciiBytes "rcx:pair:v1"
  | .recovery => asciiBytes "rcx:recovery:v1"

/-- HKDF-SHA256 with no salt and 32-byte output, as `Hkdf::<Sha256>::new(None,
parent)` + `expand(info, out)` computes it: `PRK = HMAC(0^32, IKM)`,
`OKM = T(1) = HMAC(PRK, info ‖ 0x01)`. -/
def hkdfDerive (p : Prims) (parent info : List Nat) : List Nat :=
  takeExact 32 (p.hmacSha256 (p.hmacSha256 (zeros 32) parent) (info ++ [1]))

/-- `derive::derive_key` (crypto/derive.rs:67-108): info = label ‖ context_be,
guarded by the 32-byte label limit; output fills a `GuardedKey32`. -/
def derive_key (p : Prims) (parent : List Nat) (purpose : Purpose)
    (context : Nat) : Option (List Nat) :=
  let label := purpose.label
  if label.length > 32 then
    none
  else
    some (hkdfDerive p parent (label ++ beBytes 8 context))

/- ───────────── `crypto/nonce.rs`: deterministic nonce ───────────── -/

/-- `nonce::derive_nonce` (crypto/nonce.rs:38-59): truncated
HMAC-SHA256(key, label ‖ file_id_be ‖ chunk_be). -/
def derive_nonce (p : Prims) (key : List Nat) (file_id chunk : Nat) :
    List Nat :=
  takeExact NONCE_LEN
    (p.hmacSha256 key
      (asciiBytes "rcxcloud:file:nonce:v1" ++ beBytes 8 file_id ++ beBytes 4 chunk))

/- ───────────── `crypto/aad.rs`: typed associated data ───────────── -/

def AAD_VERSION_V1 : Nat := 1

structure Aad where
  file_id : Nat
  chunk : Nat
  cloud_id : Nat
  version : Nat
deriving DecidableEq

/-- `Aad::new` (crypto/aad.rs:27-43): only version 1 is accepted. -/
def Aad.new (file_id chunk cloud_id version : Nat) : Option Aad :=
  if version ≠ AAD_VERSION_V1 then
    none
  else
    some ⟨file_id, chunk, cloud_id, version⟩

/-- `Aad::serialize` (crypto/aad.rs:46-53): fixed 15 bytes, big-endian
`file_id(8) ‖ chunk(4) ‖ cloud_id(2) ‖ version(1)`. -/
def Aad.serialize (a : Aad) : List Nat :=
  beBytes 8 a.file_id ++ beBytes 4 a.chunk ++ beBytes 2 a.cloud_id ++ [a.version]

/- ───────────── `keystore/session.rs`: the active session ───────────── -/

inductive SessionError
  | killed
  | locked
  | invalidInput
  | outputTooSmall
  | cryptoFailure
deriving DecidableEq

structure EncryptResult where
  total_len : Nat
deriving DecidableEq

structure VerifyResult where
  verified : Bool
deriving DecidableEq

/-- `Session` holds the (optional) guarded session key; `kill()`/`Drop` take
the key out, leaving `none`. -/
structure Session where
  session_key : Option (List Nat)
deriving DecidableEq

/-- `Session::require_alive` (keystore/session.rs:81-89): the global kill fuse
is checked first, then the presence of the key. -/
def Session.require_alive (killed : Bool) (s : Session) :
    Except SessionError (List Nat) :=
  if killed then
    .error .killed
  else
    match s.session_key with
    | some k => .ok k
    | none => .error .locked

/-- `Session::encrypt` (keystore/session.rs:97-146).  `killed` is the value of
`GLOBAL_KILLED` during the call; the second (re-)check of the fuse in the
source is kept.  Returns the result together with the final `out` contents. -/
def Session.encrypt (p : Prims) (killed : Bool) (s : Session)
    (plaintext : List Nat) (aad : Aad) (out : List Nat) :
    Except SessionError EncryptResult × List Nat :=
  match s.require_alive killed with
  | .error e => (.error e, out)
  | .ok session_key =>
    let required := plaintext.length + TAG_LEN
    if out.length ≠ required then
      (.error .outputTooSmall, zeros out.length)
    else
      match derive_key p session_key .fileEncryption aad.file_id with
      | none => (.error .cryptoFailure, zeros out.length)
      | some enc_key =>
        if killed then
          (.error .killed, zeros out.length)
        else
          let nonce := derive_nonce p enc_key aad.file_id aad.chunk
          match seal_ p enc_key nonce plaintext aad.serialize out with
          | (true, out') => (.ok ⟨required⟩, out')
          | (false, _) => (.error .cryptoFailure, zeros out.length)

/-- `Session::decrypt_verify` (keystore/session.rs:153-205).  Authentication
failure zeroes `out` and still returns `Ok (VerifyResult false)`. -/
def Session.decrypt_verify (p : Prims) (killed : Bool) (s : Session)
    (input : List Nat) (aad : Aad) (out : List Nat) :
    Except SessionError VerifyResult × List Nat :=
  match s.require_alive killed with
  | .error e => (.error e, out)
  | .ok session_key =>
    if input.length < TAG_LEN then
      (.error .invalidInput, zeros out.length)
    else
      let ct_len := input.length - TAG_LEN
      if out.length ≠ ct_len then
        (.error .outputTooSmall, zeros out.length)
      else
        match derive_key p session_key .fileEncryption aad.file_id with
        | none => (.error .cryptoFailure, zeros out.length)
        | some enc_key =>
          if killed then
            (.error .killed, zeros out.length)
          else
            let nonce := derive_nonce p enc_key aad.file_id aad.chunk
            match open_ p enc_key nonce input aad.serialize out with
            | (true, out') => (.ok ⟨true⟩, out')
            | (false, out') => (.ok ⟨false⟩, out')

/- ───────────── `crypto/file.rs`: chunk pipeline ───────────── -/

def MAX_CHUNK_SIZE : Nat := 4 * 1024 * 1024

/-- `file::encrypt_chunk` (crypto/file.rs:32-73) with the AAD version byte
abstracted as `version`; the source instantiates it with `AAD_VERSION_V1`
(see `encrypt_chunk`). -/
def encrypt_chunk_v (p : Prims) (killed : Bool) (s : Session)
    (file_id cloud_id chunk_index version : Nat)
    (plaintext out : List Nat) :
    Except SessionError EncryptResult × List Nat :=
  if plaintext.length > MAX_CHUNK_SIZE then
    (.error .invalidInput, zeros out.length)
  else if out.length ≠ plaintext.length + TAG_LEN then
    (.error .outputTooSmall, zeros out.length)
  else
    match Aad.new file_id chunk_index cloud_id version with
    | none => (.error .invalidInput, zeros out.length)
    | some aad =>
      match s.encrypt p killed plaintext aad out with
      | (.ok r, out') => (.ok r, out')
      | (.error e, _) => (.error e, zeros out.length)

/-- `file::encrypt_chunk` exactly as in the source: version fixed to
`AAD_VERSION_V1`. -/
def encrypt_chunk (p : Prims) (killed : Bool) (s : Session)
    (file_id cloud_id chunk_index : Nat) (plaintext out : List Nat) :
    Except SessionError EncryptResult × List Nat :=
  encrypt_chunk_v p killed s file_id cloud_id chunk_index AAD_VERSION_V1
    plaintext out

/-- `file::decrypt_chunk` (crypto/file.rs:80-127). -/
def decrypt_chunk (p : Prims) (killed : Bool) (s : Session)
    (file_id cloud_id chunk_index : Nat) (ciphertext out : List Nat) :
    Except SessionError VerifyResult × List Nat :=
  if ciphertext.length < TAG_LEN then
    (.error .invalidInput, zeros out.length)
  else if ciphertext.length - TAG_LEN > MAX_CHUNK_SIZE then
    (.error .invalidInput, zeros out.length)
  else if out.length ≠ ciphertext.length - TAG_LEN then
    (.error .outputTooSmall, zeros out.length)
  else
    match Aad.new file_id chunk_index cloud_id AAD_VERSION_V1 with
    | none => (.error .invalidInput, zeros out.length)
    | some aad =>
      match s.decrypt_verify p killed ciphertext aad out with
      | (.ok v, out') => (.ok v, out')
      | (.error e, _) => (.error e, zeros out.length)

/- ──────── `crypto/kdf_argon2.rs` / `integrity/verify.rs` / recovery ──────── -/

structure Params where
  mem_kib : Nat
  time : Nat
  lanes : Nat
deriving DecidableEq

/-- `Params::default` (crypto/kdf_argon2.rs:32-40). -/
def Params.default : Params := ⟨64 * 1024, 3, 1⟩

/-- `validate_params` (crypto/kdf_argon2.rs:151-162). -/
def validate_params (params : Params) : Bool :=
  (8 * 1024 ≤ params.mem_kib && params.mem_kib ≤ 512 * 1024)
    && (1 ≤ params.time && params.time ≤ 10)
    && (1 ≤ params.lanes && params.lanes ≤ 4)

/-- `kdf_argon2::derive_two_keys` (crypto/kdf_argon2.rs:97-135): validate,
then hash 64 bytes and split into `(root, session)`. -/
def derive_two_keys (p : Prims) (input salt : List Nat) (params : Params) :
    Except Unit (List Nat × List Nat) :=
  if input.isEmpty || salt.isEmpty then
    .error ()
  else if ¬ validate_params params then
    .error ()
  else
    let tmp := takeExact 64 (p.argon2 input salt)
    .ok (tmp.take 32, (tmp.drop 32).take 32)

def INTEGRITY_CONTEXT : Nat := 0x494E544547524954

/-- `verify_key_integrity` (integrity/verify.rs:34-55): recompute the session
key from the root under `Purpose::Recovery` and compare (the source compares
in constant time; equality is the functional content). -/
def verify_key_integrity (p : Prims) (master session : List Nat) : Bool :=
  match derive_key p master .recovery INTEGRITY_CONTEXT with
  | none => false
  | some expected => session = expected

inductive RecoveryError
  | invalidInput
  | kdfFailure
  | integrityFailure
deriving DecidableEq

/-- `recovery::recover_from_phrase` (keystore/recovery.rs:74-102): derive
`(root, session)` from the phrase, verify the binding, return the session key
as single-use authority. -/
def recover_from_phrase (p : Prims) (phrase : List Nat) (cfg : Params) :
    Except RecoveryError (List Nat) :=
  if phrase.isEmpty then
    .error .invalidInput
  else
    match derive_two_keys p phrase (asciiBytes "rcxcloud-recovery-v1") cfg with
    | .error _ => .error .kdfFailure
    | .ok (root, session) =>
      if verify_key_integrity p root session then
        .ok session
      else
        .error .integrityFailure

/- ───────────── `keystore/mod.rs`: the keystore state machine ─────────────

The mutex is not represented (the embedding is sequential); the poisoning
escalation path is therefore out of scope here.  `killed` is the value of the
`GLOBAL_KILLED` atomic observed during the call. -/

inductive KeyStoreError
  | locked
  | killed
  | poisoned
  | session (e : SessionError)
deriving DecidableEq

inductive KSState
  | lockedSt
  | active (s : Session)
  | killedSt
deriving DecidableEq

/-- `KeyStore::unlock` (keystore/mod.rs:67-86).  NOTE: the source returns
`KeyStoreError::Locked` from the `State::Active` arm (line 83); there is no
`AlreadyUnlocked` variant in this file's `KeyStoreError` enum, although
`bridge/api.rs:196` matches on one. -/
def KeyStore.unlock (killed : Bool) (st : KSState) (auth : List Nat) :
    Except KeyStoreError Unit × KSState :=
  if killed then
    (.error .killed, st)
  else
    match st with
    | .lockedSt => (.ok (), .active ⟨some auth⟩)
    | .active s => (.error .locked, .active s)
    | .killedSt => (.error .killed, .killedSt)

/-- `KeyStore::with_session` (keystore/mod.rs:94-113): global kill checked
first, then the session operation runs under the lock; the callback may
mutate the session, so it returns the updated session too. -/
def KeyStore.with_session {R : Type} (killed : Bool) (st : KSState)
    (f : Session → Except SessionError R × Session) :
    Except KeyStoreError R × KSState :=
  if killed then
    (.error .killed, st)
  else
    match st with
    | .active s =>
      match f s with
      | (.ok r, s') => (.ok r, .active s')
      | (.error e, s') => (.error (.session e), .active s')
    | .lockedSt => (.error .locked, .lockedSt)
    | .killedSt => (.error .killed, .killedSt)

/-- `KeyStore::lock` (keystore/mod.rs:121-133): drops the active session
(zeroizing its key) and returns to `Locked`; otherwise a no-op. -/
def KeyStore.lock (st : KSState) : KSState :=
  match st with
  | .active _ => .lockedSt
  | s => s

/- ───────────── `bridge/api.rs`: the frozen public surface ───────────── -/

inductive CoreError
  | locked
  | killed
  | invalidInput
  | cryptoFailure
  | integrityFailure
  | denied
deriving DecidableEq

/-- `map_session_error` (bridge/api.rs:202-210). -/
def map_session_error : SessionError → CoreError
  | .killed => .killed
  | .locked => .locked
  | .invalidInput => .invalidInput
  | .outputTooSmall => .invalidInput
  | .cryptoFailure => .cryptoFailure

/-- `map_keystore_error` (bridge/api.rs:191-199).  The source also contains
the arm `KeyStoreError::AlreadyUnlocked => CoreError::Denied`, but the
`KeyStoreError` enum it imports (keystore/mod.rs:27-32) has no such variant,
so that arm has no counterpart here — see the C7 analysis. -/
def map_keystore_error : KeyStoreError → CoreError
  | .locked => .locked
  | .killed => .killed
  | .poisoned => .killed
  | .session se => map_session_error se

/-- `Core::require_alive` (bridge/api.rs:96-103). -/
def Core.require_alive (killed : Bool) : Except CoreError Unit :=
  if killed then .error .killed else .ok ()

/-- `Core::is_killed` (bridge/api.rs:131-133). -/
def Core.is_killed (killed : Bool) : Bool := killed

/-- `Core::unlock_with_phrase` (bridge/api.rs:106-123). -/
def Core.unlock_with_phrase (p : Prims) (killed : Bool) (st : KSState)
    (phrase : List Nat) : Except CoreError Unit × KSState :=
  match Core.require_alive killed with
  | .error e => (.error e, st)
  | .ok _ =>
    match recover_from_phrase p phrase Params.default with
    | .error _ => (.error .integrityFailure, st)
    | .ok auth =>
      match KeyStore.unlock killed st auth with
      | (.ok r, st') => (.ok r, st')
      | (.error e, st') => (.error (map_keystore_error e), st')

/-- `Core::encrypt_chunk` (bridge/api.rs:138-160): kill gate, then
`keystore.with_session(|s| encrypt_chunk(s, ...))` with the closure's mutation
of the caller's `out` buffer made explicit (`with_session`'s kill-check /
state dispatch is unfolded so the buffer can be threaded through). -/
def Core.encrypt_chunk (p : Prims) (killed : Bool) (st : KSState)
    (file_id cloud_id chunk : Nat) (plaintext out : List Nat) :
    Except CoreError EncryptResult × KSState × List Nat :=
  match Core.require_alive killed with
  | .error e => (.error e, st, out)
  | .ok _ =>
    if killed then
      (.error (map_keystore_error .killed), st, out)
    else
      match st with
      | .active s =>
        match RCX.encrypt_chunk p killed s file_id cloud_id chunk plaintext out with
        | (.ok r, out') => (.ok r, .active s, out')
        | (.error e, out') =>
          (.error (map_keystore_error (.session e)), .active s, out')
      | .lockedSt => (.error (map_keystore_error .locked), .lockedSt, out)
      | .killedSt => (.error (map_keystore_error .killed), .killedSt, out)

/-- `Core::decrypt_chunk` (bridge/api.rs:163-185), same shape as
`Core.encrypt_chunk`. -/
def Core.decrypt_chunk (p : Prims) (killed : Bool) (st : KSState)
    (file_id cloud_id chunk : Nat) (ciphertext out : List Nat) :
    Except CoreError VerifyResult × KSState × List Nat :=
  match Core.require_alive killed with
  | .error e => (.error e, st, out)
  | .ok _ =>
    if killed then
      (.error (map_keystore_error .killed), st, out)
    else
      match st with
      | .active s =>
        match RCX.decrypt_chunk p killed s file_id cloud_id chunk ciphertext out with
        | (.ok v, out') => (.ok v, .active s, out')
        | (.error e, out') =>
          (.error (map_keystore_error (.session e)), .active s, out')
      | .lockedSt => (.error (map_keystore_error .locked), .lockedSt, out)
      | .killedSt => (.error (map_keystore_error .killed), .killedSt, out)

/- ───────────── `logging/encrypted.rs`: append-only log files ─────────────

The log root directory holds named files; the filesystem is modelled as an
association list from file name to byte content (`create(true)` means a
missing file reads as empty).  I/O is deterministic in the model; the
fail-closed branches that depend on `GLOBAL_KILLED` are kept. -/

/-- Named files under the log root. -/
abbrev FS := List (String × List Nat)

def getFile (fs : FS) (name : String) : List Nat :=
  ((fs.find? (fun e => e.1 == name)).map Prod.snd).getD []

def setFile (fs : FS) (name : String) (content : List Nat) : FS :=
  (name, content) :: fs.eraseP (fun e => e.1 == name)

/-- `EncryptedLog::open_append` (logging/encrypted.rs:55-60): refused once
`GLOBAL_KILLED` is set; otherwise yields a handle to the named file. -/
def open_append (killed : Bool) (name : String) : Option String :=
  if killed then none else some name

/-- `EncryptedLog::open_device_kill_log` (logging/encrypted.rs:44-46). -/
def open_device_kill_log (killed : Bool) : Option String :=
  open_append killed "device_kill.log"

/-- `EncryptedLog::open_replay_log` (logging/encrypted.rs:49-51). -/
def open_replay_log (killed : Bool) : Option String :=
  open_append killed "kill_replay.log"

/-- `EncryptedLog::append_record` (logging/encrypted.rs:89-99):
length-prefixed append, refused after kill. -/
def append_record (killed : Bool) (fs : FS) (name : String)
    (data : List Nat) : Option FS :=
  if killed then
    none
  else
    some (setFile fs name (getFile fs name ++ beBytes 4 data.length ++ data))

/-- `EncryptedLog::has_any_content` (logging/encrypted.rs:103-108). -/
def has_any_content (fs : FS) (name : String) : Bool :=
  (getFile fs name).length > 0

/-- `EncryptedLog::append_u64` (logging/encrypted.rs:114-124): raw 8-byte
big-endian append, refused after kill. -/
def append_u64 (killed : Bool) (fs : FS) (name : String) (value : Nat) :
    Option FS :=
  if killed then
    none
  else
    some (setFile fs name (getFile fs name ++ beBytes 8 value))

/-- `EncryptedLog::read_last_u64` (logging/encrypted.rs:128-147): `none` if
fewer than 8 bytes, corruption error unless the size is a multiple of 8,
otherwise the big-endian value of the final 8 bytes. -/
def read_last_u64 (fs : FS) (name : String) : Except Unit (Option Nat) :=
  let content := getFile fs name
  if content.length < 8 then
    .ok none
  else if content.length % 8 ≠ 0 then
    .error ()
  else
    .ok (some (beToNat (content.drop (content.length - 8))))

/- ───────────── `device/registry.rs`: kill marker persistence ───────────── -/

structure DeviceRegistry where
  device_id : List Nat
  fingerprint : Nat
deriving DecidableEq

def DeviceRegistry.device_fingerprint (r : DeviceRegistry) : Nat :=
  r.fingerprint

/-- `DeviceRegistry::is_killed` (device/registry.rs:108-118): existence-based,
fail-closed when the log cannot be opened. -/
def DeviceRegistry.is_killed (killed : Bool) (fs : FS) : Bool :=
  match open_device_kill_log killed with
  | none => true
  | some name => has_any_content fs name

/-- `DeviceRegistry::mark_this_device_killed` (device/registry.rs:126-135):
append a length-prefixed `KILLED` record to the kill-marker log. -/
def DeviceRegistry.mark_this_device_killed (killed : Bool) (fs : FS) :
    Except Unit FS :=
  match open_device_kill_log killed with
  | none => .error ()
  | some name =>
    match append_record killed fs name (asciiBytes "KILLED") with
    | some fs' => .ok fs'
    | none => .error ()

/- ───────────── `kill/protocol.rs` / `kill/strategy.rs` ───────────── -/

/-- `build_kill_aad` (kill/protocol.rs:19-31): fixed label ++ fingerprint. -/
def build_kill_aad (r : DeviceRegistry) : List Nat :=
  asciiBytes "rcxcloud-kill-v1" ++ beBytes 8 r.device_fingerprint

def KILL_VERSION_V1 : Nat := 1
def PLAINTEXT_LEN : Nat := 1 + 32 + 8

/-- `ReplayToken::from_bytes` (kill/replay.rs:15-20). -/
def replayTokenFromBytes (b : List Nat) : Option Nat :=
  if b.length ≠ 8 then none else some (beToNat b)

structure KillDecision where
  replay : Nat
deriving DecidableEq

structure ParsedKill where
  device_id : List Nat
  replay : Nat
deriving DecidableEq

/-- `decrypt_blob` (kill/strategy.rs:116-154): split nonce ‖ ciphertext‖tag,
AEAD-open, then check plaintext length and version byte. -/
def decrypt_blob (p : Prims) (key blob aad : List Nat) : Option (List Nat) :=
  if blob.length < NONCE_LEN + TAG_LEN then
    none
  else
    match open_ p key (blob.take NONCE_LEN) (blob.drop NONCE_LEN) aad
        (zeros ((blob.drop NONCE_LEN).length - TAG_LEN)) with
    | (false, _) => none
    | (true, plaintext) =>
      if plaintext.length ≠ PLAINTEXT_LEN then
        none
      else if plaintext.headD 0 ≠ KILL_VERSION_V1 then
        none
      else
        some plaintext

/-- `parse_payload` (kill/strategy.rs:161-171). -/
def parse_payload (buf : List Nat) : Option ParsedKill :=
  let device_id := (buf.drop 1).take 32
  match replayTokenFromBytes ((buf.drop 33).take 8) with
  | none => none
  | some replay => some ⟨device_id, replay⟩

/-- `verify_kill_blob` (kill/strategy.rs:58-101): derive the per-device kill
key, authenticate the blob, parse, and check the device binding (the source
compares in constant time; equality is the functional content). -/
def verify_kill_blob (p : Prims) (r : DeviceRegistry) (root_key blob : List Nat) :
    Option KillDecision :=
  match derive_key p root_key .recovery r.device_fingerprint with
  | none => none
  | some kill_key =>
    match decrypt_blob p kill_key blob (build_kill_aad r) with
    | none => none
    | some plaintext =>
      match parse_payload plaintext with
      | none => none
      | some parsed =>
        if parsed.device_id = r.device_id then
          some ⟨parsed.replay⟩
        else
          none

/-- Spec-side restatement of the claim's acceptance condition for
`verify_kill_blob`, written from the claim's words for comparison with the
source-derived definition: the blob is accepted iff it is at least 28 bytes,
AEAD open of `blob[12..]` under nonce `blob[0..12]`, the derived kill key and
the kill AAD succeeds, the plaintext is exactly 41 bytes with version byte 1,
and bytes 1..33 equal the registry's device id; the decision then carries the
big-endian u64 at bytes 33..41. -/
def killBlobOpen (p : Prims) (r : DeviceRegistry) (root blob : List Nat) :
    Bool × List Nat :=
  open_ p
    (hkdfDerive p root (Purpose.recovery.label ++ beBytes 8 r.device_fingerprint))
    (blob.take NONCE_LEN) (blob.drop NONCE_LEN) (build_kill_aad r)
    (zeros ((blob.drop NONCE_LEN).length - TAG_LEN))

def killBlobSpec (p : Prims) (r : DeviceRegistry) (root blob : List Nat) :
    Option KillDecision :=
  if NONCE_LEN + TAG_LEN ≤ blob.length ∧ (killBlobOpen p r root blob).1 = true
      ∧ (killBlobOpen p r root blob).2.length = PLAINTEXT_LEN
      ∧ (killBlobOpen p r root blob).2.headD 0 = KILL_VERSION_V1
      ∧ ((killBlobOpen p r root blob).2.drop 1).take 32 = r.device_id
  then some ⟨beToNat (((killBlobOpen p r root blob).2.drop 33).take 8)⟩
  else none

/- ───────────── `kill/replay.rs` / `kill/executor.rs` ───────────── -/

/-- `check_and_commit` (kill/replay.rs:36-53).  NOTE: the source opens the
log through `EncryptedLog::open_device_kill_log()` (the `device_kill.log`
kill-marker file), not through `open_replay_log()` — see the C6 analysis.
Returns the decision and the resulting filesystem. -/
def check_and_commit (killed : Bool) (fs : FS) (token : Nat) : Bool × FS :=
  match open_device_kill_log killed with
  | none => (false, fs)
  | some name =>
    match read_last_u64 fs name with
    | .error _ => (false, fs)
    | .ok r =>
      let last := r.getD 0
      if token ≤ last then
        (false, fs)
      else
        match append_u64 killed fs name token with
        | some fs' => (true, fs')
        | none => (false, fs)

inductive KillError
  | replayDetected
  | ioFailure
deriving DecidableEq

/-- Process-wide state touched by the kill executor: the `GLOBAL_KILLED`
fuse, the keystore and the log files. -/
structure World where
  killed : Bool
  ks : KSState
  fs : FS
deriving DecidableEq

/-- Outcome of `execute_kill`: an error return, or the terminal abort loop
which never returns (carrying the state in which the process halts). -/
inductive ExecOutcome
  | rejected (e : KillError) (w : World)
  | halted (w : World)
deriving DecidableEq

/-- `execute_kill` (kill/executor.rs:21-46), step by step: 1. replay check
(fail closed), 2. set the fuse, 3. wipe the keystore via `lock()`,
4. best-effort kill marker (result ignored), 5. terminal halt. -/
def execute_kill (w : World) (replay : Nat) : ExecOutcome :=
  match check_and_commit w.killed w.fs replay with
  | (false, fs') => .rejected .replayDetected { w with fs := fs' }
  | (true, fs1) =>
    let w1 : World := { killed := true, ks := w.ks, fs := fs1 }
    let w2 : World := { w1 with ks := KeyStore.lock w1.ks }
    let w3 : World :=
      match DeviceRegistry.mark_this_device_killed w2.killed w2.fs with
      | .ok fs' => { w2 with fs := fs' }
      | .error _ => w2
    .halted w3

/- ───────────── derived notions used by the statements below ───────────── -/

/-- The raw-u64 log content produced by a sequence of committed tokens:
the concatenation of their 8-byte big-endian encodings. -/
def encodeTokens (ts : List Nat) : List Nat :=
  (ts.map (beBytes 8)).flatten

/-- Most recently committed token, `0` if none (the default
`check_and_commit` uses for an empty log). -/
def lastTok (ts : List Nat) : Nat := ts.getLastD 0

/-- Run `check_and_commit` over a whole sequence of tokens (fuse unset),
collecting each decision and threading the filesystem. -/
def commitAll (fs : FS) (rs : List Nat) : List Bool × FS :=
  rs.foldl
    (fun acc r =>
      let step := check_and_commit false acc.2 r
      (acc.1 ++ [step.1], step.2))
    ([], fs)

/-- A concrete primitive instantiation used by the witnesses: every theorem
in this file is proved for every `Prims`, so any executable instance will do. -/
def primsW : Prims :=
  ⟨fun _ block => block, fun _ _ => zeros 32, fun _ _ => zeros 64⟩

deriving instance DecidableEq for Except

set_option maxRecDepth 40000

/- ═════════════════════════ supporting lemmas ═════════════════════════ -/

@[simp] theorem zeros_length (n : Nat) : (zeros n).length = n := by
  simp [zeros]

@[simp] theorem takeExact_length (k : Nat) (l : List Nat) :
    (takeExact k l).length = k := by
  simp [takeExact]

@[simp] theorem beBytes_length (k n : Nat) : (beBytes k n).length = k := by
  induction k generalizing n with
  | zero => rfl
  | succ k ih => simp [beBytes, ih]

@[simp] theorem xorBytes_length (a b : List Nat) :
    (xorBytes a b).length = min a.length b.length := by
  simp [xorBytes]

theorem takeExact_eq_self (k : Nat) (l : List Nat) (h : l.length = k) :
    takeExact k l = l := by
  subst h
  simp [takeExact, List.take_left]

theorem beToNat_append_singleton (a : List Nat) (y : Nat) :
    beToNat (a ++ [y]) = beToNat a * 256 + y := by
  simp [beToNat, List.foldl_append]

theorem beToNat_beBytes (k n : Nat) : beToNat (beBytes k n) = n % 2 ^ (8 * k) := by
  induction k generalizing n with
  | zero => simp [beBytes, beToNat, Nat.mod_one]
  | succ k ih =>
    have hb : beToNat (beBytes (k + 1) n)
        = beToNat (beBytes k (n / 256)) * 256 + n % 256 := by
      simp [beBytes, beToNat_append_singleton]
    rw [hb, ih]
    have h1 : n / 256 % 2 ^ (8 * k) = n % (256 * 2 ^ (8 * k)) / 256 :=
      (Nat.mod_mul_right_div_self n 256 (2 ^ (8 * k))).symm
    have h2 : n % (256 * 2 ^ (8 * k)) % 256 = n % 256 :=
      Nat.mod_mod_of_dvd n ⟨2 ^ (8 * k), rfl⟩
    have hpow : 2 ^ (8 * (k + 1)) = 256 * 2 ^ (8 * k) := by
      rw [Nat.mul_succ, pow_add]
      ring
    rw [hpow, h1]
    omega

theorem xorBytes_cancel (a b : List Nat) (h : a.length ≤ b.length) :
    xorBytes (xorBytes a b) b = a := by
  induction a generalizing b with
  | nil => simp [xorBytes]
  | cons x xs ih =>
    cases b with
    | nil => simp at h
    | cons y ys =>
      simp only [List.length_cons, Nat.succ_le_succ_iff] at h
      simp [xorBytes, List.zipWith] at *
      exact ⟨Nat.xor_cancel_right y x, ih ys h⟩

@[simp] theorem keystream_length (p : Prims) (key nonce : List Nat) (n : Nat) :
    (keystream p key nonce n).length = n := by
  simp [keystream]

theorem gcmTag_length (p : Prims) (key nonce aad ct : List Nat) :
    (gcmTag p key nonce aad ct).length = 16 := by
  simp [gcmTag, blockOf]

/- ═════════════════════════ claim theorems ═════════════════════════ -/

/-- C1: once `GLOBAL_KILLED` is observed `true`, every core operation except
`is_killed` fails with the kill error — `Core::unlock_with_phrase`,
`Core::encrypt_chunk` and `Core::decrypt_chunk` return `CoreError::Killed`,
`KeyStore::unlock` and `KeyStore::with_session` return
`KeyStoreError::Killed` — for every keystore state and all other arguments,
without touching the state or the output buffer; `is_killed` returns
`true`. -/
theorem global_kill_blocks_all_operations :
    (∀ (p : Prims) (st : KSState) (phrase : List Nat),
        Core.unlock_with_phrase p true st phrase = (.error .killed, st))
    ∧ (∀ (p : Prims) (st : KSState) (fid cid ch : Nat) (pt out : List Nat),
        Core.encrypt_chunk p true st fid cid ch pt out = (.error .killed, st, out))
    ∧ (∀ (p : Prims) (st : KSState) (fid cid ch : Nat) (ct out : List Nat),
        Core.decrypt_chunk p true st fid cid ch ct out = (.error .killed, st, out))
    ∧ (∀ (st : KSState) (auth : List Nat),
        KeyStore.unlock true st auth = (.error .killed, st))
    ∧ (∀ (R : Type) (st : KSState) (f : Session → Except SessionError R × Session),
        KeyStore.with_session true st f = (.error .killed, st))
    ∧ Core.is_killed true = true := by
  refine ⟨fun p st phrase => rfl, fun p st fid cid ch pt out => rfl,
    fun p st fid cid ch ct out => rfl, fun st auth => rfl,
    fun R st f => rfl, rfl⟩

/-- C7 (code bug): with the fuse unset and the keystore `Active`,
`KeyStore::unlock` returns `KeyStoreError::Locked` — not an
already-unlocked error — leaving the session untouched; the bridge maps
`Locked` to `CoreError::Locked`, not `Denied`.  (`bridge/api.rs:196` matches
a `KeyStoreError::AlreadyUnlocked` variant that the keystore's error enum
does not define.) -/
theorem unlock_active_returns_locked :
    ∀ (s : Session) (auth : List Nat),
      KeyStore.unlock false (.active s) auth
          = (.error KeyStoreError.locked, .active s)
        ∧ map_keystore_error KeyStoreError.locked = CoreError.locked
        ∧ CoreError.locked ≠ CoreError.denied := by
  intro s auth
  exact ⟨rfl, rfl, by decide⟩

/-- C6 (code bug): the read and append performed by `check_and_commit` land
in the `device_kill.log` kill-marker file, not in `kill_replay.log`: after a
fresh commit of token 7, the raw token bytes sit in `device_kill.log`,
`kill_replay.log` is untouched — and `DeviceRegistry::is_killed` consequently
reports the device as killed. -/
theorem check_and_commit_targets_kill_marker_file :
    check_and_commit false [] 7 = (true, [("device_kill.log", beBytes 8 7)])
      ∧ getFile (check_and_commit false [] 7).2 "kill_replay.log" = []
      ∧ DeviceRegistry.is_killed false (check_and_commit false [] 7).2 = true
      ∧ open_device_kill_log false = some "device_kill.log"
      ∧ open_replay_log false = some "kill_replay.log" := by
  refine ⟨by decide, by decide, by decide, rfl, rfl⟩

/-- C9: `Aad::new` rejects every version byte other than 1 (for all field
values) and always succeeds with version 1; an encrypt attempt whose AAD
construction uses a version ≠ 1 fails with `InvalidInput` and zeroes the
output buffer.  `encrypt_chunk_v` is `file::encrypt_chunk` with the version
byte abstracted; the last conjunct ties it to the source's instantiation. -/
theorem aad_version_gate :
    (∀ f c cl v : Nat, v ≠ AAD_VERSION_V1 → Aad.new f c cl v = none)
    ∧ (∀ f c cl : Nat, Aad.new f c cl AAD_VERSION_V1
        = some ⟨f, c, cl, AAD_VERSION_V1⟩)
    ∧ (∀ (p : Prims) (killed : Bool) (s : Session) (f cl ci v : Nat)
        (pt out : List Nat), v ≠ AAD_VERSION_V1 →
        out.length = pt.length + TAG_LEN →
        encrypt_chunk_v p killed s f cl ci v pt out
          = (.error .invalidInput, zeros out.length))
    ∧ (∀ (p : Prims) (killed : Bool) (s : Session) (f cl ci : Nat)
        (pt out : List Nat),
        encrypt_chunk p killed s f cl ci pt out
          = encrypt_chunk_v p killed s f cl ci AAD_VERSION_V1 pt out) := by
  refine ⟨fun f c cl v hv => by simp [Aad.new, hv],
    fun f c cl => by simp [Aad.new],
    fun p killed s f cl ci v pt out hv hlen => ?_,
    fun p killed s f cl ci pt out => rfl⟩
  unfold encrypt_chunk_v
  by_cases hsz : pt.length > MAX_CHUNK_SIZE
  · simp [hsz]
  · simp only [hsz, if_false, hlen, if_neg (by omega : ¬ (pt.length + TAG_LEN ≠ pt.length + TAG_LEN))]
    simp [Aad.new, hv]

theorem aad_version_gate_witness :
    (2 : Nat) ≠ AAD_VERSION_V1
      ∧ Aad.new 9 4 2 2 = none
      ∧ Aad.new 9 4 2 AAD_VERSION_V1 = some ⟨9, 4, 2, AAD_VERSION_V1⟩
      ∧ encrypt_chunk_v primsW false ⟨some (zeros 32)⟩ 9 2 4 2 [1, 2] (zeros 18)
          = (.error .invalidInput, zeros 18) := by
  have h2 : (2 : Nat) ≠ AAD_VERSION_V1 := by decide
  have hlen : (zeros 18).length = [1, 2].length + TAG_LEN := by decide
  refine ⟨h2, aad_version_gate.1 9 4 2 2 h2, aad_version_gate.2.1 9 4 2, ?_⟩
  have h := aad_version_gate.2.2.1 primsW false ⟨some (zeros 32)⟩ 9 2 4 2 [1, 2]
    (zeros 18) h2 hlen
  rw [h]
  decide

@[simp] theorem encodeTokens_nil : encodeTokens [] = [] := rfl

theorem encodeTokens_cons (x : Nat) (xs : List Nat) :
    encodeTokens (x :: xs) = beBytes 8 x ++ encodeTokens xs := by
  simp [encodeTokens]

theorem encodeTokens_concat (ts : List Nat) (r : Nat) :
    encodeTokens (ts ++ [r]) = encodeTokens ts ++ beBytes 8 r := by
  simp [encodeTokens]

theorem encodeTokens_length (ts : List Nat) :
    (encodeTokens ts).length = 8 * ts.length := by
  induction ts with
  | nil => rfl
  | cons x xs ih =>
    rw [encodeTokens_cons, List.length_append, beBytes_length, ih,
      List.length_cons]
    ring

theorem lastTok_cons_cons (x y : Nat) (r : List Nat) :
    lastTok (x :: y :: r) = lastTok (y :: r) := by
  simp [lastTok, List.getLastD_cons]

theorem lastTok_concat (ts : List Nat) (r : Nat) :
    lastTok (ts ++ [r]) = r := by
  induction ts with
  | nil => rfl
  | cons x xs ih =>
    cases xs with
    | nil => rfl
    | cons y rest =>
      rw [List.cons_append, List.cons_append, lastTok_cons_cons]
      simpa using ih

theorem lastTok_mem (ts : List Nat) (h : ts ≠ []) : lastTok ts ∈ ts := by
  induction ts with
  | nil => exact absurd rfl h
  | cons x xs ih =>
    cases xs with
    | nil => simp [lastTok]
    | cons y rest =>
      rw [lastTok_cons_cons]
      exact List.mem_cons_of_mem x (ih (by simp))

theorem chain_le_lastTok : ∀ ts : List Nat,
    List.Chain' (fun a b => a < b) ts → ∀ t ∈ ts, t ≤ lastTok ts := by
  intro ts
  induction ts with
  | nil => intro _ t hm; cases hm
  | cons x xs ih =>
    intro hc t hm
    cases xs with
    | nil =>
      rcases List.mem_singleton.mp hm with rfl
      simp [lastTok]
    | cons y rest =>
      rw [lastTok_cons_cons]
      rw [List.chain'_cons] at hc
      rcases List.mem_cons.mp hm with rfl | hmem
      · exact le_of_lt (lt_of_lt_of_le hc.1
          (ih hc.2 y (List.mem_cons_self y rest)))
      · exact ih hc.2 t hmem

theorem encodeTokens_drop_last (ts : List Nat) (h : ts ≠ []) :
    (encodeTokens ts).drop ((encodeTokens ts).length - 8)
      = beBytes 8 (lastTok ts) := by
  induction ts with
  | nil => exact absurd rfl h
  | cons x xs ih =>
    cases xs with
    | nil =>
      simp [encodeTokens, lastTok]
    | cons y rest =>
      rw [encodeTokens_cons, lastTok_cons_cons]
      have hlen : (encodeTokens (y :: rest)).length = 8 * (rest.length + 1) := by
        rw [encodeTokens_length, List.length_cons]
      have hsum : (beBytes 8 x ++ encodeTokens (y :: rest)).length - 8
          = (beBytes 8 x).length + ((encodeTokens (y :: rest)).length - 8) := by
        rw [List.length_append, beBytes_length, hlen]
        omega
      rw [hsum, List.drop_append]
      exact ih (by simp)

@[simp] theorem getFile_setFile (fs : FS) (name : String) (c : List Nat) :
    getFile (setFile fs name c) name = c := by
  simp [getFile, setFile, List.find?]

/-- The characterization of one `check_and_commit` call over a log holding
exactly the committed tokens `ts`. -/
theorem checkCommit_characterization (fs : FS) (ts : List Nat) (replay : Nat)
    (hfile : getFile fs "device_kill.log" = encodeTokens ts)
    (hts : ∀ t ∈ ts, t < 2 ^ 64) (hr : replay < 2 ^ 64) :
    check_and_commit false fs replay
      = if lastTok ts < replay
        then (true, setFile fs "device_kill.log" (encodeTokens (ts ++ [replay])))
        else (false, fs) := by
  have hread : read_last_u64 fs "device_kill.log" = .ok (some (lastTok ts))
      ∨ (ts = [] ∧ read_last_u64 fs "device_kill.log" = .ok none) := by
    rcases eq_or_ne ts [] with h0 | h0
    · subst h0
      right
      refine ⟨rfl, ?_⟩
      unfold read_last_u64
      rw [hfile]
      rfl
    · left
      unfold read_last_u64
      rw [hfile]
      have hlen : (encodeTokens ts).length = 8 * ts.length :=
        encodeTokens_length ts
      have hne : ts.length ≠ 0 := fun hc => h0 (List.length_eq_zero.mp hc)
      rw [if_neg (by omega), if_neg (by omega)]
      rw [encodeTokens_drop_last ts h0, beToNat_beBytes]
      have hlt : lastTok ts < 2 ^ 64 := hts _ (lastTok_mem ts h0)
      rw [Nat.mod_eq_of_lt (by exact_mod_cast hlt)]
  have happend : append_u64 false fs "device_kill.log" replay
      = some (setFile fs "device_kill.log" (encodeTokens (ts ++ [replay]))) := by
    unfold append_u64
    rw [if_neg (by simp), hfile, encodeTokens_concat]
  have hopen : open_device_kill_log false = some "device_kill.log" := rfl
  unfold check_and_commit
  simp only [hopen]
  rcases hread with hread | ⟨h0, hread⟩
  · simp only [hread, Option.getD_some]
    by_cases hlt : lastTok ts < replay
    · rw [if_pos hlt, if_neg (by omega : ¬ replay ≤ lastTok ts)]
      simp only [happend]
    · rw [if_neg hlt, if_pos (by omega : replay ≤ lastTok ts)]
  · subst h0
    simp only [hread, Option.getD_none]
    have h00 : lastTok ([] : List Nat) = 0 := rfl
    rw [h00]
    by_cases hlt : (0 : Nat) < replay
    · rw [if_pos hlt, if_neg (by omega : ¬ replay ≤ 0)]
      simp only [happend]
    · rw [if_neg hlt, if_pos (by omega : replay ≤ 0)]

theorem commitAll_acc (rs : List Nat) (acc0 : List Bool) (fs : FS) :
    rs.foldl
      (fun acc r =>
        let step := check_and_commit false acc.2 r
        (acc.1 ++ [step.1], step.2)) (acc0, fs)
      = (acc0 ++ (commitAll fs rs).1, (commitAll fs rs).2) := by
  induction rs generalizing acc0 fs with
  | nil => simp [commitAll]
  | cons r rs ih =>
    rw [commitAll, List.foldl_cons, List.foldl_cons, ih, ih]
    simp

theorem commitAll_cons (fs : FS) (r : Nat) (rs : List Nat) :
    commitAll fs (r :: rs)
      = ((check_and_commit false fs r).1
            :: (commitAll (check_and_commit false fs r).2 rs).1,
          (commitAll (check_and_commit false fs r).2 rs).2) := by
  rw [commitAll, List.foldl_cons, commitAll_acc]
  simp

/-- Every token of a strictly increasing sequence that starts above the
current last committed token commits successfully. -/
theorem commitAll_all_true (rs : List Nat) :
    ∀ (ts : List Nat) (fs : FS),
      getFile fs "device_kill.log" = encodeTokens ts →
      (∀ t ∈ ts, t < 2 ^ 64) → (∀ t ∈ rs, t < 2 ^ 64) →
      List.Chain' (fun a b => a < b) (lastTok ts :: rs) →
      (commitAll fs rs).1.all (fun b => b) = true := by
  induction rs with
  | nil =>
    intro ts fs _ _ _ _
    simp [commitAll]
  | cons r rs ih =>
    intro ts fs hfile hts hrs hchain
    rw [List.chain'_cons] at hchain
    have hr : r < 2 ^ 64 := hrs r (List.mem_cons_self r rs)
    have hstep := checkCommit_characterization fs ts r hfile hts hr
    rw [if_pos hchain.1] at hstep
    rw [commitAll_cons, hstep]
    simp only [List.all_cons, Bool.and_eq_true]
    refine ⟨trivial, ?_⟩
    exact ih (ts ++ [r]) _ (getFile_setFile _ _ _)
      (by
        intro t htm
        rcases List.mem_append.mp htm with h | h
        · exact hts t h
        · rcases List.mem_singleton.mp h with rfl
          exact hr)
      (fun t htm => hrs t (List.mem_cons_of_mem r htm))
      (by rw [lastTok_concat]; exact hchain.2)

theorem parse_payload_of_len (buf : List Nat) (h : buf.length = PLAINTEXT_LEN) :
    parse_payload buf
      = some ⟨(buf.drop 1).take 32, beToNat ((buf.drop 33).take 8)⟩ := by
  have hlen : ((buf.drop 33).take 8).length = 8 := by
    simp [List.length_take, List.length_drop, h, PLAINTEXT_LEN]
  unfold parse_payload replayTokenFromBytes
  rw [if_neg (by omega)]

theorem decrypt_blob_characterization (p : Prims) (key blob aad : List Nat) :
    decrypt_blob p key blob aad
      = (if NONCE_LEN + TAG_LEN ≤ blob.length
            ∧ (open_ p key (blob.take NONCE_LEN) (blob.drop NONCE_LEN) aad
                (zeros ((blob.drop NONCE_LEN).length - TAG_LEN))).1 = true
            ∧ (open_ p key (blob.take NONCE_LEN) (blob.drop NONCE_LEN) aad
                (zeros ((blob.drop NONCE_LEN).length - TAG_LEN))).2.length
                = PLAINTEXT_LEN
            ∧ (open_ p key (blob.take NONCE_LEN) (blob.drop NONCE_LEN) aad
                (zeros ((blob.drop NONCE_LEN).length - TAG_LEN))).2.headD 0
                = KILL_VERSION_V1
         then some (open_ p key (blob.take NONCE_LEN) (blob.drop NONCE_LEN) aad
            (zeros ((blob.drop NONCE_LEN).length - TAG_LEN))).2
         else none) := by
  unfold decrypt_blob
  by_cases hblen : blob.length < NONCE_LEN + TAG_LEN
  · rw [if_pos hblen, if_neg (fun hc => absurd hc.1 (by omega))]
  · rw [if_neg hblen]
    have hle : NONCE_LEN + TAG_LEN ≤ blob.length := by omega
    rcases ho : open_ p key (blob.take NONCE_LEN) (blob.drop NONCE_LEN) aad
        (zeros ((blob.drop NONCE_LEN).length - TAG_LEN)) with ⟨ok, ptx⟩
    cases ok
    · simp only []
      rw [if_neg (fun hc => Bool.false_ne_true hc.2.1)]
    · simp only []
      by_cases h41 : ptx.length = PLAINTEXT_LEN
      · rw [if_neg (not_not_intro h41)]
        by_cases hv : ptx.headD 0 = KILL_VERSION_V1
        · rw [if_neg (not_not_intro hv), if_pos ⟨hle, trivial, h41, hv⟩]
        · rw [if_pos hv, if_neg (fun hc => hv hc.2.2.2)]
      · rw [if_pos h41, if_neg (fun hc => h41 hc.2.2.1)]

/-- C4: `verify_kill_blob` accepts exactly the blobs described by the claim —
at least 28 bytes, AEAD-opening under the kill key derived from the root key
with `Purpose::Recovery` and the registry fingerprint and under the 24-byte
kill AAD, with a 41-byte version-1 plaintext whose bytes 1..33 equal the
registry device id — and then returns the big-endian replay token at
plaintext bytes 33..41; in every other case it returns `None`. -/
theorem verify_kill_blob_characterization :
    ∀ (p : Prims) (r : DeviceRegistry) (root blob : List Nat),
      verify_kill_blob p r root blob = killBlobSpec p r root blob := by
  intro p r root blob
  have hdk : derive_key p root Purpose.recovery r.device_fingerprint
      = some (hkdfDerive p root
          (Purpose.recovery.label ++ beBytes 8 r.device_fingerprint)) := by
    unfold derive_key
    rw [if_neg (by decide)]
  by_cases hA : NONCE_LEN + TAG_LEN ≤ blob.length
      ∧ (killBlobOpen p r root blob).1 = true
      ∧ (killBlobOpen p r root blob).2.length = PLAINTEXT_LEN
      ∧ (killBlobOpen p r root blob).2.headD 0 = KILL_VERSION_V1
  · have hL : verify_kill_blob p r root blob
        = if ((killBlobOpen p r root blob).2.drop 1).take 32 = r.device_id
          then some ⟨beToNat (((killBlobOpen p r root blob).2.drop 33).take 8)⟩
          else none := by
      unfold verify_kill_blob
      simp only [hdk, decrypt_blob_characterization]
      rw [show open_ p
          (hkdfDerive p root
            (Purpose.recovery.label ++ beBytes 8 r.device_fingerprint))
          (blob.take NONCE_LEN) (blob.drop NONCE_LEN) (build_kill_aad r)
          (zeros ((blob.drop NONCE_LEN).length - TAG_LEN))
          = killBlobOpen p r root blob from rfl]
      rw [if_pos hA]
      simp only [parse_payload_of_len (killBlobOpen p r root blob).2 hA.2.2.1]
    rw [hL]
    unfold killBlobSpec
    by_cases hdev : ((killBlobOpen p r root blob).2.drop 1).take 32
        = r.device_id
    · rw [if_pos hdev,
        if_pos (⟨hA.1, hA.2.1, hA.2.2.1, hA.2.2.2, hdev⟩ :
          NONCE_LEN + TAG_LEN ≤ blob.length
            ∧ (killBlobOpen p r root blob).1 = true
            ∧ (killBlobOpen p r root blob).2.length = PLAINTEXT_LEN
            ∧ (killBlobOpen p r root blob).2.headD 0 = KILL_VERSION_V1
            ∧ ((killBlobOpen p r root blob).2.drop 1).take 32 = r.device_id)]
    · rw [if_neg hdev, if_neg (fun hc => hdev hc.2.2.2.2)]
  · have hL : verify_kill_blob p r root blob = none := by
      unfold verify_kill_blob
      simp only [hdk, decrypt_blob_characterization]
      rw [show open_ p
          (hkdfDerive p root
            (Purpose.recovery.label ++ beBytes 8 r.device_fingerprint))
          (blob.take NONCE_LEN) (blob.drop NONCE_LEN) (build_kill_aad r)
          (zeros ((blob.drop NONCE_LEN).length - TAG_LEN))
          = killBlobOpen p r root blob from rfl]
      rw [if_neg hA]
    rw [hL]
    unfold killBlobSpec
    rw [if_neg (fun hc => hA ⟨hc.1, hc.2.1, hc.2.2.1, hc.2.2.2.1⟩)]

/-- C5 (amended): with `last` the most recently committed token (0 for an
empty log), `check_and_commit` returns `true` and appends exactly when the
token exceeds `last`, and returns `false` without touching the log otherwise;
any token less than or equal to some committed token of the (increasing) log
is rejected; and a strictly increasing token sequence commits in full
provided its first element exceeds the current `last` — the amendment, since
the token `0` is itself rejected on an empty log (`last = 0`) even though
`[0]` is strictly increasing. -/
theorem check_and_commit_monotone :
    ∀ (fs : FS) (ts : List Nat) (replay : Nat),
      getFile fs "device_kill.log" = encodeTokens ts →
      (∀ t ∈ ts, t < 2 ^ 64) → replay < 2 ^ 64 →
      (check_and_commit false fs replay
          = if lastTok ts < replay
            then (true,
              setFile fs "device_kill.log" (encodeTokens (ts ++ [replay])))
            else (false, fs))
      ∧ (∀ t ∈ ts, List.Chain' (fun a b => a < b) ts → replay ≤ t →
          (check_and_commit false fs replay).1 = false)
      ∧ (∀ rs : List Nat, (∀ t ∈ rs, t < 2 ^ 64) →
          List.Chain' (fun a b => a < b) (lastTok ts :: rs) →
          (commitAll fs rs).1.all (fun b => b) = true) := by
  intro fs ts replay hfile hts hr
  have hchar := checkCommit_characterization fs ts replay hfile hts hr
  refine ⟨hchar, ?_, ?_⟩
  · intro t htm hchain hle
    have hlast : t ≤ lastTok ts := chain_le_lastTok ts hchain t htm
    rw [hchar, if_neg (by omega : ¬ lastTok ts < replay)]
  · intro rs hrs hchain
    exact commitAll_all_true rs ts fs hfile hts hrs hchain

/-- C5 counterexample: the claim's consequence "any strictly increasing
sequence of tokens all commit" fails as stated — `[0]` is strictly
increasing, yet on an empty log (`last = 0`) the token `0` is rejected,
because `check_and_commit` requires strict growth over the default 0. -/
theorem zero_token_strict_sequence_rejected :
    List.Chain' (fun a b => a < b) ([0] : List Nat)
      ∧ (commitAll ([] : FS) [0]).1 = [false] := by
  constructor
  · simp
  · decide

theorem check_and_commit_monotone_witness :
    getFile [("device_kill.log", encodeTokens [3, 5])] "device_kill.log"
        = encodeTokens [3, 5]
      ∧ check_and_commit false [("device_kill.log", encodeTokens [3, 5])] 7
          = (true, setFile [("device_kill.log", encodeTokens [3, 5])]
              "device_kill.log" (encodeTokens [3, 5, 7])) := by
  have h := (check_and_commit_monotone
    [("device_kill.log", encodeTokens [3, 5])] [3, 5] 7 rfl
    (by decide) (by decide)).1
  refine ⟨rfl, ?_⟩
  rw [h]
  decide

/-- A failing `check_and_commit` leaves the filesystem untouched: every
rejection path returns before any write. -/
theorem check_and_commit_false_fs (killed : Bool) (fs : FS) (t : Nat)
    (h : (check_and_commit killed fs t).1 = false) :
    (check_and_commit killed fs t).2 = fs := by
  unfold check_and_commit at *
  cases killed
  · simp only [open_device_kill_log, open_append, Bool.false_eq_true,
      if_false] at h ⊢
    cases hr : read_last_u64 fs "device_kill.log" with
    | error e => simp [hr]
    | ok r =>
      simp only [hr] at h ⊢
      by_cases hle : t ≤ r.getD 0
      · simp [hle]
      · simp [hle, append_u64] at h
  · simp [open_device_kill_log, open_append]

/-- C3: `execute_kill` is gated by the replay commit — when
`check_and_commit` rejects, it returns `ReplayDetected` with the fuse, the
keystore and the filesystem all unchanged; when the commit succeeds it halts
(never returns) in a state whose fuse is set and whose keystore was wiped via
`lock()`, with the filesystem exactly as the commit left it (the subsequent
best-effort marker append is attempted under the now-set fuse, so it fails
and changes nothing). -/
theorem execute_kill_replay_gate :
    ∀ (w : World) (replay : Nat),
      ((check_and_commit w.killed w.fs replay).1 = false →
        execute_kill w replay = .rejected .replayDetected w)
      ∧ ((check_and_commit w.killed w.fs replay).1 = true →
        execute_kill w replay
          = .halted { killed := true, ks := KeyStore.lock w.ks,
                      fs := (check_and_commit w.killed w.fs replay).2 }) := by
  intro w replay
  constructor
  · intro h
    have hfs := check_and_commit_false_fs w.killed w.fs replay h
    unfold execute_kill
    rcases hc : check_and_commit w.killed w.fs replay with ⟨b, fs'⟩
    rw [hc] at h hfs
    cases b
    · simp only at hfs
      rw [hfs]
    · cases h
  · intro h
    unfold execute_kill
    rcases hc : check_and_commit w.killed w.fs replay with ⟨b, fs'⟩
    rw [hc] at h
    cases b
    · cases h
    · rfl

theorem execute_kill_replay_gate_witness :
    (check_and_commit false ([] : FS) 0).1 = false
      ∧ execute_kill ⟨false, KSState.lockedSt, []⟩ 0
          = .rejected .replayDetected ⟨false, KSState.lockedSt, []⟩
      ∧ (check_and_commit false ([] : FS) 7).1 = true
      ∧ execute_kill ⟨false, KSState.lockedSt, []⟩ 7
          = .halted ⟨true, KSState.lockedSt, (check_and_commit false [] 7).2⟩ := by
  refine ⟨by decide, ?_, by decide, ?_⟩
  · exact (execute_kill_replay_gate ⟨false, .lockedSt, []⟩ 0).1 (by decide)
  · exact (execute_kill_replay_gate ⟨false, .lockedSt, []⟩ 7).2 (by decide)

/-- C2: AEAD round trip — for every 32-byte key, 12-byte nonce, plaintext
and aad, `seal` into a buffer of length `|pt| + 16` succeeds, and `open` of
the sealed buffer under the same key, nonce and aad into a buffer of length
`|pt|` returns `true` with the output bitwise equal to the plaintext.  Proved
for every block-cipher instantiation. -/
theorem seal_open_roundtrip :
    ∀ (p : Prims) (key nonce pt aad out out2 : List Nat),
      key.length = 32 → nonce.length = NONCE_LEN →
      out.length = pt.length + TAG_LEN → out2.length = pt.length →
      (seal_ p key nonce pt aad out).1 = true
        ∧ open_ p key nonce (seal_ p key nonce pt aad out).2 aad out2
            = (true, pt) := by
  intro p key nonce pt aad out out2 hkey hnonce hout hout2
  have hks : (keystream p key nonce pt.length).length = pt.length :=
    keystream_length p key nonce pt.length
  set ct := xorBytes pt (keystream p key nonce pt.length) with hct
  have hctlen : ct.length = pt.length := by
    rw [hct, xorBytes_length, hks, Nat.min_self]
  set tag := gcmTag p key nonce aad ct with htag
  have htaglen : tag.length = 16 := gcmTag_length p key nonce aad ct
  have hseal : seal_ p key nonce pt aad out = (true, ct ++ tag) := by
    unfold seal_
    rw [if_neg (by omega : ¬ out.length ≠ pt.length + TAG_LEN),
      if_neg (by omega : ¬ key.length ≠ 32)]
    rfl
  refine ⟨by rw [hseal], ?_⟩
  rw [hseal]
  have hinlen : (ct ++ tag).length = pt.length + TAG_LEN := by
    rw [List.length_append, hctlen, htaglen]
    rfl
  have htake : (ct ++ tag).take ((ct ++ tag).length - TAG_LEN) = ct := by
    rw [hinlen]
    have : pt.length + TAG_LEN - TAG_LEN = ct.length := by omega
    rw [this, List.take_left]
  have hdrop : (ct ++ tag).drop ((ct ++ tag).length - TAG_LEN) = tag := by
    rw [hinlen]
    have : pt.length + TAG_LEN - TAG_LEN = ct.length := by omega
    rw [this, List.drop_left]
  unfold open_
  rw [if_neg (by omega : ¬ (ct ++ tag).length < TAG_LEN),
    if_neg (by rw [hinlen]; omega : ¬ out2.length ≠ (ct ++ tag).length - TAG_LEN),
    if_neg (by omega : ¬ key.length ≠ 32), htake, hdrop]
  unfold decryptDetached
  rw [if_pos rfl, hctlen]
  have hdec : xorBytes ct (keystream p key nonce pt.length) = pt := by
    rw [hct]
    exact xorBytes_cancel pt (keystream p key nonce pt.length) (by omega)
  rw [hdec]

theorem seal_open_roundtrip_witness :
    (zeros 32).length = 32 ∧ (zeros 12).length = NONCE_LEN
      ∧ (zeros 19).length = [1, 2, 3].length + TAG_LEN
      ∧ (zeros 3).length = [1, 2, 3].length
      ∧ open_ primsW (zeros 32) (zeros 12)
          (seal_ primsW (zeros 32) (zeros 12) [1, 2, 3] [7] (zeros 19)).2
          [7] (zeros 3) = (true, [1, 2, 3]) := by
  refine ⟨by decide, by decide, by decide, by decide, ?_⟩
  exact (seal_open_roundtrip primsW (zeros 32) (zeros 12) [1, 2, 3] [7]
    (zeros 19) (zeros 3) (by decide) (by decide) (by decide) (by decide)).2

/-- C10: `Aad::serialize` is injective on version-1 values — equal 15-byte
serializations force equal `(file_id, chunk, cloud_id)` triples (the fields
bounded like the `u64`/`u32`/`u16` machine types they model). -/
theorem aad_serialize_injective :
    ∀ (f1 c1 cl1 f2 c2 cl2 : Nat) (a b : Aad),
      f1 < 2 ^ 64 → c1 < 2 ^ 32 → cl1 < 2 ^ 16 →
      f2 < 2 ^ 64 → c2 < 2 ^ 32 → cl2 < 2 ^ 16 →
      Aad.new f1 c1 cl1 1 = some a →
      Aad.new f2 c2 cl2 1 = some b →
      a.serialize = b.serialize →
      f1 = f2 ∧ c1 = c2 ∧ cl1 = cl2 := by
  intro f1 c1 cl1 f2 c2 cl2 a b hf1 hc1 hcl1 hf2 hc2 hcl2 ha hb hser
  simp only [Aad.new, AAD_VERSION_V1] at ha hb
  split at ha
  · exact absurd ha (by simp)
  · split at hb
    · exact absurd hb (by simp)
    · cases Option.some.inj ha
      cases Option.some.inj hb
      simp only [Aad.serialize] at hser
      rw [List.append_assoc, List.append_assoc, List.append_assoc,
        List.append_assoc] at hser
      have h8 : (beBytes 8 f1).length = (beBytes 8 f2).length := by simp
      obtain ⟨hfe, hrest⟩ := List.append_inj hser h8
      have h4 : (beBytes 4 c1).length = (beBytes 4 c2).length := by simp
      obtain ⟨hce, hrest2⟩ := List.append_inj hrest h4
      have h2 : (beBytes 2 cl1).length = (beBytes 2 cl2).length := by simp
      obtain ⟨hcle, _⟩ := List.append_inj hrest2 h2
      refine ⟨?_, ?_, ?_⟩
      · have := congrArg beToNat hfe
        rwa [beToNat_beBytes, beToNat_beBytes,
          Nat.mod_eq_of_lt hf1, Nat.mod_eq_of_lt hf2] at this
      · have := congrArg beToNat hce
        rwa [beToNat_beBytes, beToNat_beBytes,
          Nat.mod_eq_of_lt hc1, Nat.mod_eq_of_lt hc2] at this
      · have := congrArg beToNat hcle
        rwa [beToNat_beBytes, beToNat_beBytes,
          Nat.mod_eq_of_lt hcl1, Nat.mod_eq_of_lt hcl2] at this

theorem require_alive_error_cases (killed : Bool) (s : Session) (e : SessionError)
    (h : s.require_alive killed = .error e) : e = .killed ∨ e = .locked := by
  unfold Session.require_alive at h
  split at h
  · exact Or.inl (by injection h with h'; exact h'.symm)
  · split at h
    · cases h
    · exact Or.inr (by injection h with h'; exact h'.symm)

/-- `Session::encrypt` never reports `InvalidInput`: its failure modes are
`Killed`, `Locked`, `OutputTooSmall` and `CryptoFailure`. -/
theorem session_encrypt_ne_invalidInput (p : Prims) (killed : Bool)
    (s : Session) (pt : List Nat) (aad : Aad) (out : List Nat) :
    (s.encrypt p killed pt aad out).1 ≠ .error .invalidInput := by
  cases killed with
  | true => simp [Session.encrypt, Session.require_alive]
  | false =>
    cases hra : s.require_alive false with
    | error e =>
      rcases require_alive_error_cases false s e hra with h | h <;>
        simp [Session.encrypt, hra, h]
    | ok sk =>
      cases hdk : derive_key p sk Purpose.fileEncryption aad.file_id with
      | none =>
        by_cases hl : out.length = pt.length + TAG_LEN <;>
          simp [Session.encrypt, hra, hdk, hl]
      | some ek =>
        by_cases hl : out.length = pt.length + TAG_LEN
        · rcases hs : seal_ p ek (derive_nonce p ek aad.file_id aad.chunk) pt
            aad.serialize out with ⟨ok, out'⟩
          cases ok <;> simp [Session.encrypt, hra, hdk, hl, hs]
        · simp [Session.encrypt, hra, hdk, hl]

/-- `Session::decrypt_verify` reports `InvalidInput` only for inputs shorter
than the tag. -/
theorem session_decrypt_ne_invalidInput (p : Prims) (killed : Bool)
    (s : Session) (input : List Nat) (aad : Aad) (out : List Nat)
    (hlen : TAG_LEN ≤ input.length) :
    (s.decrypt_verify p killed input aad out).1 ≠ .error .invalidInput := by
  cases killed with
  | true => simp [Session.decrypt_verify, Session.require_alive]
  | false =>
    cases hra : s.require_alive false with
    | error e =>
      rcases require_alive_error_cases false s e hra with h | h <;>
        simp [Session.decrypt_verify, hra, h]
    | ok sk =>
      have hni : ¬ input.length < TAG_LEN := by omega
      cases hdk : derive_key p sk Purpose.fileEncryption aad.file_id with
      | none =>
        by_cases hl : out.length = input.length - TAG_LEN <;>
          simp [Session.decrypt_verify, hra, hni, hdk, hl]
      | some ek =>
        by_cases hl : out.length = input.length - TAG_LEN
        · rcases ho : open_ p ek (derive_nonce p ek aad.file_id aad.chunk) input
            aad.serialize out with ⟨ok, out'⟩
          cases ok <;> simp [Session.decrypt_verify, hra, hni, hdk, hl, ho]
        · simp [Session.decrypt_verify, hra, hni, hdk, hl]

/-- C8: the 4 MiB DoS bound — oversize plaintexts make `encrypt_chunk`
return `InvalidInput` with a zeroed output buffer; ciphertexts whose length
minus the 16-byte tag exceeds 4 MiB make `decrypt_chunk` do the same; and
inputs at or below the bound are never rejected with `InvalidInput` by either
pipeline. -/
theorem chunk_size_bound :
    (∀ (p : Prims) (killed : Bool) (s : Session) (f cl ci : Nat)
        (pt out : List Nat), pt.length > MAX_CHUNK_SIZE →
        encrypt_chunk p killed s f cl ci pt out
          = (.error .invalidInput, zeros out.length))
    ∧ (∀ (p : Prims) (killed : Bool) (s : Session) (f cl ci : Nat)
        (ct out : List Nat), ct.length - TAG_LEN > MAX_CHUNK_SIZE →
        decrypt_chunk p killed s f cl ci ct out
          = (.error .invalidInput, zeros out.length))
    ∧ (∀ (p : Prims) (killed : Bool) (s : Session) (f cl ci : Nat)
        (pt out : List Nat), pt.length ≤ MAX_CHUNK_SIZE →
        (encrypt_chunk p killed s f cl ci pt out).1 ≠ .error .invalidInput)
    ∧ (∀ (p : Prims) (killed : Bool) (s : Session) (f cl ci : Nat)
        (ct out : List Nat), TAG_LEN ≤ ct.length →
        ct.length - TAG_LEN ≤ MAX_CHUNK_SIZE →
        (decrypt_chunk p killed s f cl ci ct out).1 ≠ .error .invalidInput) := by
  refine ⟨?_, ?_, ?_, ?_⟩
  · intro p killed s f cl ci pt out hsz
    unfold encrypt_chunk encrypt_chunk_v
    simp [hsz]
  · intro p killed s f cl ci ct out hsz
    unfold decrypt_chunk
    have h1 : ¬ ct.length < TAG_LEN := by
      unfold TAG_LEN at *
      unfold MAX_CHUNK_SIZE at hsz
      omega
    simp [h1, hsz]
  · intro p killed s f cl ci pt out hsz
    unfold encrypt_chunk encrypt_chunk_v
    have h1 : ¬ pt.length > MAX_CHUNK_SIZE := by omega
    rw [if_neg h1]
    split
    · simp
    · split
      · rename_i heq
        simp [Aad.new] at heq
      · rename_i aad heq
        split
        · simp
        · rename_i e out' heq2
          have hne := session_encrypt_ne_invalidInput p killed s pt aad out
          rw [heq2] at hne
          exact fun hc => hne hc
  · intro p killed s f cl ci ct out h16 hsz
    unfold decrypt_chunk
    rw [if_neg (by omega : ¬ ct.length < TAG_LEN),
      if_neg (by omega : ¬ ct.length - TAG_LEN > MAX_CHUNK_SIZE)]
    split
    · simp
    · split
      · rename_i heq
        simp [Aad.new] at heq
      · rename_i aad heq
        split
        · simp
        · rename_i e out' heq2
          have hne := session_decrypt_ne_invalidInput p killed s ct aad out h16
          rw [heq2] at hne
          exact fun hc => hne hc

theorem chunk_size_bound_witness :
    (zeros (MAX_CHUNK_SIZE + 1)).length > MAX_CHUNK_SIZE
      ∧ encrypt_chunk primsW false ⟨some (zeros 32)⟩ 1 1 0
          (zeros (MAX_CHUNK_SIZE + 1)) (zeros 4)
          = (.error .invalidInput, zeros 4)
      ∧ (encrypt_chunk primsW false ⟨some (zeros 32)⟩ 1 1 0 [1] (zeros 17)).1
          ≠ .error .invalidInput
      ∧ (decrypt_chunk primsW false ⟨some (zeros 32)⟩ 1 1 0 (zeros 17)
          (zeros 1)).1 ≠ .error .invalidInput := by
  have hlen : (zeros (MAX_CHUNK_SIZE + 1)).length > MAX_CHUNK_SIZE := by
    simp [zeros]
  refine ⟨hlen, ?_, ?_, ?_⟩
  · have h := chunk_size_bound.1 primsW false ⟨some (zeros 32)⟩ 1 1 0
      (zeros (MAX_CHUNK_SIZE + 1)) (zeros 4) hlen
    simpa using h
  · exact chunk_size_bound.2.2.1 primsW false ⟨some (zeros 32)⟩ 1 1 0 [1]
      (zeros 17) (by simp [MAX_CHUNK_SIZE])
  · exact chunk_size_bound.2.2.2 primsW false ⟨some (zeros 32)⟩ 1 1 0
      (zeros 17) (zeros 1) (by simp [TAG_LEN, zeros]) (by simp [zeros, TAG_LEN, MAX_CHUNK_SIZE])

theorem aad_serialize_injective_witness :
    (5 : Nat) < 2 ^ 64 ∧ (3 : Nat) < 2 ^ 32 ∧ (2 : Nat) < 2 ^ 16
      ∧ Aad.new 5 3 2 1 = some ⟨5, 3, 2, 1⟩
      ∧ (5 = 5 ∧ 3 = 3 ∧ 2 = 2) :=
  ⟨by decide, by decide, by decide, by decide,
    aad_serialize_injective 5 3 2 5 3 2 ⟨5, 3, 2, 1⟩ ⟨5, 3, 2, 1⟩
      (by decide) (by decide) (by decide) (by decide) (by decide) (by decide)
      (by decide) (by decide) rfl⟩

end RCX
